import Mathlib

/-!
# Verification of the license-plate recognition pipeline (`main.py`)

This file is a shallow embedding, in Lean 4, of the core logic of the
repository's single source file `main.py`:

* the country pattern table `LICENSE_PLATE_PATTERNS` and the matcher
  `detect_country` (lines 7-19),
* the per-frame detection loop `process_frame` (lines 28-59),
* the entry points `process_image` (lines 68-77) and `play_video`
  (lines 79-102).

External collaborators (OpenCV contour extraction, the EasyOCR engine,
drawing primitives, image/video decoding) are modelled as oracle
parameters; the Python control flow, filters and thresholds are
translated directly.  Python strings are modelled as `List Char`,
Python floats as `ℚ` (the thresholds 0.2, 1.5, 5.0 are exactly
representable; float rounding of `w / h` is not modelled).
-/

namespace LPR

/-! ## Character classes

`main.py` uses `re` character classes `[A-Z]`, `[0-9]`, `[A-Z0-9]` and the
literal `-`, and the Python predicates `str.isalnum` / `str.isspace`.
The two Python predicates are modelled on the ASCII range (the range all
the patterns and all concrete inputs in this development live in). -/

/-- `[A-Z]`: an ASCII uppercase letter. -/
def isUpperAZ (c : Char) : Bool := 'A' ≤ c && c ≤ 'Z'

/-- `[0-9]`: an ASCII decimal digit. -/
def isDigit09 (c : Char) : Bool := '0' ≤ c && c ≤ '9'

/-- `[A-Z0-9]`: an ASCII uppercase letter or decimal digit. -/
def isUpperOrDigit (c : Char) : Bool := isUpperAZ c || isDigit09 c

/-- The literal `-` of the Nepal pattern. -/
def isHyphen (c : Char) : Bool := c == '-'

/-- Model of Python `str.isalnum` for one character (ASCII range). -/
def py_isalnum (c : Char) : Bool := c.isAlphanum

/-- Model of Python `str.isspace` for one character (ASCII range). -/
def py_isspace (c : Char) : Bool :=
  c == ' ' || c == '\t' || c == '\n' || c == '\x0b' || c == '\x0c' || c == '\r'

/-! ## A tiny regex model

Every pattern in `LICENSE_PLATE_PATTERNS` is a concatenation of bounded
repetitions of character classes (`-` is the singleton class `isHyphen`),
so a pattern is a list of `RepItem`s.  `re.match` succeeds iff some
prefix of the subject matches the whole pattern. -/

/-- One regex factor `cls{lo,hi}`: between `lo` and `hi` characters of
class `cls`. -/
structure RepItem where
  cls : Char → Bool
  lo : Nat
  hi : Nat

/-- `matchSeq items s` : does some prefix of `s` match the concatenation
of the `items`?  This is the semantics of Python `re.match(pattern, s)`
returning a match object (truthiness), for patterns of this shape. -/
def matchSeq : List RepItem → List Char → Bool
  | [], _ => true
  | it :: rest, s =>
      (List.range (it.hi + 1)).any fun k =>
        decide (it.lo ≤ k) && decide (k ≤ s.length) &&
          (s.take k).all it.cls && matchSeq rest (s.drop k)

/-- `fullMatch items s` : does the WHOLE of `s` match the concatenation
of the `items`?  Used to state that `matchSeq` has prefix semantics. -/
def fullMatch : List RepItem → List Char → Bool
  | [], s => s.isEmpty
  | it :: rest, s =>
      (List.range (it.hi + 1)).any fun k =>
        decide (it.lo ≤ k) && decide (k ≤ s.length) &&
          (s.take k).all it.cls && fullMatch rest (s.drop k)

/-! ## The pattern table (`main.py` lines 7-13) -/

/-- `"USA": r"[A-Z0-9]{1,7}"` -/
def patUSA : List RepItem := [⟨isUpperOrDigit, 1, 7⟩]

/-- `"India": r"[A-Z]{2}[0-9]{2}[A-Z]{1,2}[0-9]{4}"` -/
def patIndia : List RepItem :=
  [⟨isUpperAZ, 2, 2⟩, ⟨isDigit09, 2, 2⟩, ⟨isUpperAZ, 1, 2⟩, ⟨isDigit09, 4, 4⟩]

/-- `"Nepal": r"[A-Z]{2}-[0-9]{1,4}-[A-Z]{1,2}"` -/
def patNepal : List RepItem :=
  [⟨isUpperAZ, 2, 2⟩, ⟨isHyphen, 1, 1⟩, ⟨isDigit09, 1, 4⟩,
   ⟨isHyphen, 1, 1⟩, ⟨isUpperAZ, 1, 2⟩]

/-- `"Australia": r"[A-Z]{1,3}[0-9]{1,4}"` -/
def patAustralia : List RepItem := [⟨isUpperAZ, 1, 3⟩, ⟨isDigit09, 1, 4⟩]

/-- `"Canada": r"[A-Z0-9]{1,7}"` (textually identical to the USA pattern). -/
def patCanada : List RepItem := [⟨isUpperOrDigit, 1, 7⟩]

/-- `LICENSE_PLATE_PATTERNS`, in Python 3.7+ dict insertion order, which is
the iteration order of `detect_country`'s `for` loop. -/
def LICENSE_PLATE_PATTERNS : List (String × List RepItem) :=
  [("USA", patUSA), ("India", patIndia), ("Nepal", patNepal),
   ("Australia", patAustralia), ("Canada", patCanada)]

/-! ## `detect_country` (`main.py` lines 15-19) -/

/-- `text.replace(" ", "")`: remove every space character (only `' '`). -/
def stripSpaces (s : List Char) : List Char := s.filter (fun c => c ≠ ' ')

/-- `detect_country(text)`: iterate the table in order, return the first
country whose pattern `re.match`es the space-stripped text, else
`"Unknown"`. -/
def detect_country (text : List Char) : String :=
  match LICENSE_PLATE_PATTERNS.find? (fun cp => matchSeq cp.2 (stripSpaces text)) with
  | some cp => cp.1
  | none => "Unknown"

/-! ## The frame pipeline (`main.py` lines 28-59)

A frame is a pixel grid (`numpy` array).  One scalar per pixel suffices
for the claims; `H`/`W` give the array shape and `px` the pixel values.
`roi = frame[y:y+h, x:x+w]` is numpy slicing, which clamps to the array
bounds.  The OpenCV calls (`contourArea`, `approxPolyDP`∘`arcLength`,
`boundingRect`, `putText`, `rectangle`) and the contour extraction
chain (`preprocess_image`, `Canny`, `findContours`) are external: they
are fields of the oracle record `Ocv`, over an abstract contour type
`γ`.  The EasyOCR reader is the oracle `OcrReader`. -/

/-- A decoded frame: a `H × W` pixel grid. -/
structure Frame where
  H : Nat
  W : Nat
  px : Nat → Nat → Nat

/-- `cv2.boundingRect` output `(x, y, w, h)` (all non-negative ints). -/
structure Rect where
  x : Nat
  y : Nat
  w : Nat
  h : Nat
deriving DecidableEq, Repr

/-- `frame[y:y+h, x:x+w]` with numpy clamping, materialised row-major.
The number of rows is `roi.shape[0]`, each row's length `roi.shape[1]`. -/
def cropAt (f : Frame) (x y w h : Nat) : List (List Nat) :=
  (List.range (min (y + h) f.H - y)).map fun i =>
    (List.range (min (x + w) f.W - x)).map fun j => f.px (y + i) (x + j)

/-- One tuple `(bbox, text, prob)` of `reader.readtext`. -/
structure OcrResult where
  bbox : List (Int × Int)
  text : List Char
  prob : ℚ
deriving DecidableEq, Repr

/-- The EasyOCR reader: `reader.readtext(roi)` on a pixel-grid crop. -/
structure OcrReader where
  readtext : List (List Nat) → List OcrResult

/-- The OpenCV oracle over an abstract contour type `γ`.
`contoursOf` collapses `preprocess_image` + `cv2.Canny(gray, 30, 200)` +
`cv2.findContours(..., RETR_TREE, CHAIN_APPROX_SIMPLE)` (lines 29-31);
`approxLen` is `len(cv2.approxPolyDP(cnt, 0.02 * cv2.arcLength(cnt, True), True))`
(line 38); `putText` and `rectangle` are the drawing primitives that
mutate the frame in place (lines 56-58), here explicit frame-to-frame
functions.  `putText` receives the data of the label string
`f"{text} ({country}) {prob:.2f}"` and the position `(x, y - 10)`. -/
structure Ocv (γ : Type) where
  contoursOf : Frame → List γ
  contourArea : γ → ℚ
  approxLen : γ → Nat
  boundingRect : γ → Rect
  putText : Frame → List Char × String × ℚ → Nat × Int → Frame
  rectangle : Frame → Nat × Nat → Nat × Nat → Frame

/-- A Detected Plate `(text, country, prob)` as appended to
`detected_plates` (line 54). -/
abbrev Plate : Type := List Char × String × ℚ

/-- Ghost record of one OCR invocation `reader.readtext(roi)`:
the contour it came from, its bounding rectangle, and the exact crop
passed to the reader. -/
structure OcrCall (γ : Type) where
  cnt : γ
  rect : Rect
  roi : List (List Nat)
deriving DecidableEq, Repr

/-- Text normalization (line 51):
`''.join(e for e in text if e.isalnum() or e.isspace())`. -/
def normalize (t : List Char) : List Char :=
  t.filter fun e => py_isalnum e || py_isspace e

variable {γ : Type}

/-- The body of the `for (bbox, text, prob) in result` loop
(lines 48-58), as a fold step over `(frame, detected_plates)`.
`r` is the region's bounding rectangle (used by the drawing calls). -/
def resultStep (ocv : Ocv γ) (r : Rect) (st : Frame × List Plate)
    (res : OcrResult) : Frame × List Plate :=
  if res.prob < mkRat 1 5 then st
  else
    let text := normalize res.text
    if 4 ≤ text.length then
      let country := detect_country text
      let f1 := ocv.putText st.1 (text, country, res.prob) (r.x, (r.y : Int) - 10)
      let f2 := ocv.rectangle f1 (r.x, r.y) (r.x + r.w, r.y + r.h)
      (f2, st.2 ++ [(text, country, res.prob)])
    else st

/-- One iteration of `for cnt in contours` (lines 34-58).  Returns the
frame after this iteration's drawing, the plates appended by this
iteration, and the ghost list of OCR invocations it made (empty or a
singleton). -/
def runContour (ocv : Ocv γ) (reader : OcrReader) (frame : Frame) (cnt : γ) :
    Frame × List Plate × List (OcrCall γ) :=
  let area := ocv.contourArea cnt
  if area < 1000 then (frame, [], [])
  else if 4 ≤ ocv.approxLen cnt then
    let r := ocv.boundingRect cnt
    let aspect_ratio : ℚ := mkRat r.w r.h
    if mkRat 3 2 ≤ aspect_ratio ∧ aspect_ratio ≤ 5 then
      let roi := cropAt frame r.x r.y r.w r.h
      if roi.length < 20 ∨ min (r.x + r.w) frame.W - r.x < 80 then (frame, [], [])
      else
        let result := reader.readtext roi
        let st := result.foldl (resultStep ocv r) (frame, [])
        (st.1, st.2, [⟨cnt, r, roi⟩])
    else (frame, [], [])
  else (frame, [], [])

/-- The pipeline's output: the annotated frame, the ordered
`detected_plates` list, and the ghost trace of OCR invocations. -/
structure POut (γ : Type) where
  frame : Frame
  plates : List Plate
  calls : List (OcrCall γ)

/-- The `for cnt in contours` loop of `process_frame`, with the
accumulating `detected_plates` list rendered as concatenation of the
per-iteration contributions. -/
def processContours (ocv : Ocv γ) (reader : OcrReader) :
    Frame → List γ → POut γ
  | frame, [] => ⟨frame, [], []⟩
  | frame, cnt :: rest =>
    let s := runContour ocv reader frame cnt
    let out := processContours ocv reader s.1 rest
    ⟨out.frame, s.2.1 ++ out.plates, s.2.2 ++ out.calls⟩

/-- `process_frame(frame, reader)` (lines 28-59): extract the contours
of the preprocessed frame, then run the detection loop.  (Line 29's
`gray, frame = preprocess_image(frame)` rebinds `frame` to the same
unmodified image object, so cropping and drawing act on the input
frame.) -/
def process_frame (ocv : Ocv γ) (reader : OcrReader) (frame : Frame) : POut γ :=
  processContours ocv reader frame (ocv.contoursOf frame)

/-! ### Derived views of the loop, used to state the claims -/

/-- The geometric gate of one loop iteration: `some (r, roi)` iff the
iteration reaches the `reader.readtext(roi)` call, where `r` is the
bounding rectangle and `roi` the crop passed to the reader. -/
def regionOcr (ocv : Ocv γ) (f : Frame) (cnt : γ) :
    Option (Rect × List (List Nat)) :=
  if ocv.contourArea cnt < 1000 then none
  else if 4 ≤ ocv.approxLen cnt then
    if mkRat 3 2 ≤ mkRat (ocv.boundingRect cnt).w (ocv.boundingRect cnt).h ∧
        mkRat (ocv.boundingRect cnt).w (ocv.boundingRect cnt).h ≤ 5 then
      if (cropAt f (ocv.boundingRect cnt).x (ocv.boundingRect cnt).y
            (ocv.boundingRect cnt).w (ocv.boundingRect cnt).h).length < 20 ∨
          min ((ocv.boundingRect cnt).x + (ocv.boundingRect cnt).w) f.W -
            (ocv.boundingRect cnt).x < 80 then none
      else
        some (ocv.boundingRect cnt,
          cropAt f (ocv.boundingRect cnt).x (ocv.boundingRect cnt).y
            (ocv.boundingRect cnt).w (ocv.boundingRect cnt).h)
    else none
  else none

/-- The Text Acceptance Filter on one region's raw OCR output: keep a
result iff its confidence is not below 0.2 and its normalized text has
length at least 4 (in the reader's result order). -/
def acceptedResults (rs : List OcrResult) : List OcrResult :=
  rs.filter fun res =>
    !decide (res.prob < mkRat 1 5) && decide (4 ≤ (normalize res.text).length)

/-- The Detected Plate built from one accepted OCR result. -/
def mkPlate (res : OcrResult) : Plate :=
  (normalize res.text, detect_country (normalize res.text), res.prob)

/-- Specification-side plate stream: one `map mkPlate` over the accepted
OCR results of each OCR-reached region, concatenated in contour
discovery order (threading the annotated frame between regions). -/
def framePlatesSpec (ocv : Ocv γ) (reader : OcrReader) :
    Frame → List γ → List Plate
  | _, [] => []
  | f, cnt :: rest =>
    (match regionOcr ocv f cnt with
     | none => []
     | some p => (acceptedResults (reader.readtext p.2)).map mkPlate) ++
      framePlatesSpec ocv reader (runContour ocv reader f cnt).1 rest

/-! ## Entry points (`main.py` lines 68-102)

`cv2.imread` is modelled as an oracle `String → Option Frame` (`none` =
undecodable), `cv2.VideoCapture` as `String → Option (List Frame)`
(`none` = `not cap.isOpened()`; `some frames` = the frames `cap.read()`
yields before its first failed read).  `print` output is collected into
a message list, and a ghost counter `loadAttempts` counts the
load/open attempts made (the source performs exactly one, with no
retry).  Display calls (`imshow`, matplotlib) have no effect on the
data and are omitted; the `waitKey`/`'q'` keypress is the oracle
`quit`. -/

/-- Model of Python `f"{q:.2f}"`: the numerator of `q` in hundredths,
rounded (formatting detail only; no claim inspects it). -/
def fmt2 (q : ℚ) : Int := (q * 100 + mkRat 1 2).floor

/-- `print(f"Detected Plate: {plate} - Country: {country} - Confidence: {prob:.2f}")`
(lines 76 and 93), with the confidence in rounded hundredths. -/
def detectedMsg (p : Plate) : String :=
  "Detected Plate: " ++ String.mk p.1 ++ " - Country: " ++ p.2.1 ++
    " - Confidence: " ++ toString (fmt2 p.2.2)

/-- Observable outcome of an entry point: printed messages, all plates
detected, and the ghost count of image-load / video-open attempts. -/
structure RunOut where
  messages : List String
  plates : List Plate
  loadAttempts : Nat
deriving DecidableEq, Repr

/-- `process_image(image_path, reader)` (lines 68-77). -/
def process_image (imread : String → Option Frame) (ocv : Ocv γ)
    (reader : OcrReader) (image_path : String) : RunOut :=
  match imread image_path with
  | none => ⟨["Error: Cannot load image " ++ image_path], [], 1⟩
  | some image =>
    let out := process_frame ocv reader image
    ⟨out.plates.map detectedMsg, out.plates, 1⟩

/-- The `while True` read/process loop of `play_video`
(lines 85-99).  `n` numbers the frames for the keypress oracle; when
`use_matplotlib` is false, `quit n = true` models `waitKey(1) & 0xFF ==
ord('q')` after frame `n`. -/
def playLoop (ocv : Ocv γ) (reader : OcrReader) (use_matplotlib : Bool)
    (quit : Nat → Bool) : List Frame → Nat → List String × List Plate
  | [], _ => (["End of video or error reading frame."], [])
  | f :: fs, n =>
    let out := process_frame ocv reader f
    let msgs := out.plates.map detectedMsg
    if !use_matplotlib && quit n then (msgs, out.plates)
    else
      let rest := playLoop ocv reader use_matplotlib quit fs (n + 1)
      (msgs ++ rest.1, out.plates ++ rest.2)

/-- `play_video(video_path, reader, use_matplotlib)` (lines 79-102). -/
def play_video (capture : String → Option (List Frame)) (ocv : Ocv γ)
    (reader : OcrReader) (video_path : String) (use_matplotlib : Bool)
    (quit : Nat → Bool) : RunOut :=
  match capture video_path with
  | none => ⟨["Error: Unable to open video file: " ++ video_path], [], 1⟩
  | some frames =>
    let lp := playLoop ocv reader use_matplotlib quit frames 0
    ⟨"Press 'q' to quit." :: lp.1, lp.2, 1⟩

/-! ## Concrete oracle instantiations

Closed scenarios used to check the claims on explicit inputs.  Contours
are indexed by `Nat`.  `drawRectModel` is a concrete model of
`cv2.rectangle(frame, p, q, (0, 255, 0), 2)`: it overwrites the pixels
within the rectangle that lie within thickness 2 of its border with the
drawing colour (rendered as pixel value 255 on the scalar-pixel
model). -/

/-- Concrete model of `cv2.rectangle` with thickness 2: border pixels of
the rectangle `p`-`q` are overwritten with the drawing colour `255`. -/
def drawRectModel (f : Frame) (p q : Nat × Nat) : Frame :=
  { f with px := fun i j =>
      if (p.1 ≤ j ∧ j ≤ q.1 ∧ p.2 ≤ i ∧ i ≤ q.2) ∧
         (j ≤ p.1 + 1 ∨ q.1 ≤ j + 1 ∨ i ≤ p.2 + 1 ∨ q.2 ≤ i + 1)
      then 255 else f.px i j }

/-- A 25 × 85 all-zero (black) frame. -/
def flatFrame : Frame := ⟨25, 85, fun _ _ => 0⟩

/-- Oracle for the one-region scenario: a single contour of area 2000
whose approximated polygon has 4 vertices and whose bounding rectangle
is `(0, 0, 80, 20)` (aspect ratio 4); drawing is a no-op. -/
def ocvOne : Ocv Nat :=
  { contoursOf := fun _ => [0]
    contourArea := fun _ => 2000
    approxLen := fun _ => 4
    boundingRect := fun _ => ⟨0, 0, 80, 20⟩
    putText := fun f _ _ => f
    rectangle := fun f _ _ => f }

/-- A reader that reports the text `AB12CD3456` with confidence 0.9 on
every crop. -/
def readerIndiaText : OcrReader :=
  { readtext := fun _ => [⟨[], "AB12CD3456".toList, mkRat 9 10⟩] }

/-- Oracle for the two-region overlap scenario: contours `0` and `1`
with bounding rectangles `(0,0,80,20)` and `(2,2,80,20)`, both passing
every geometric filter; `cv2.rectangle` is `drawRectModel` and
`cv2.putText` leaves the pixels of interest alone. -/
def ocvTwo : Ocv Nat :=
  { contoursOf := fun _ => [0, 1]
    contourArea := fun _ => 2000
    approxLen := fun _ => 4
    boundingRect := fun c => if c = 0 then ⟨0, 0, 80, 20⟩ else ⟨2, 2, 80, 20⟩
    putText := fun f _ _ => f
    rectangle := drawRectModel }

/-- A reader that reports the text `AB12` with confidence 0.9 on every
crop (so the first region yields an accepted plate and is annotated). -/
def readerAB12 : OcrReader :=
  { readtext := fun _ => [⟨[], "AB12".toList, mkRat 9 10⟩] }

/-- Fallback element for indexing into a call trace. -/
def noCall : OcrCall Nat := ⟨0, ⟨0, 0, 0, 0⟩, []⟩

/-! ## Lemmas about the pattern matcher -/

theorem matchSeq_cons_iff (it : RepItem) (rest : List RepItem) (s : List Char) :
    matchSeq (it :: rest) s = true ↔
      ∃ k, it.lo ≤ k ∧ k ≤ it.hi ∧ k ≤ s.length ∧
        (s.take k).all it.cls = true ∧ matchSeq rest (s.drop k) = true := by
  simp only [matchSeq, List.any_eq_true, List.mem_range, Nat.lt_succ_iff,
    Bool.and_eq_true, decide_eq_true_eq]
  constructor
  · rintro ⟨k, hk, ⟨⟨h1, h2⟩, h3⟩, h4⟩
    exact ⟨k, h1, hk, h2, h3, h4⟩
  · rintro ⟨k, h1, hk, h2, h3, h4⟩
    exact ⟨k, hk, ⟨⟨h1, h2⟩, h3⟩, h4⟩

theorem fullMatch_cons_iff (it : RepItem) (rest : List RepItem) (s : List Char) :
    fullMatch (it :: rest) s = true ↔
      ∃ k, it.lo ≤ k ∧ k ≤ it.hi ∧ k ≤ s.length ∧
        (s.take k).all it.cls = true ∧ fullMatch rest (s.drop k) = true := by
  simp only [fullMatch, List.any_eq_true, List.mem_range, Nat.lt_succ_iff,
    Bool.and_eq_true, decide_eq_true_eq]
  constructor
  · rintro ⟨k, hk, ⟨⟨h1, h2⟩, h3⟩, h4⟩
    exact ⟨k, h1, hk, h2, h3, h4⟩
  · rintro ⟨k, h1, hk, h2, h3, h4⟩
    exact ⟨k, hk, ⟨⟨h1, h2⟩, h3⟩, h4⟩

/-- `matchSeq` has `re.match` prefix semantics: it succeeds on `s` iff
some prefix of `s` matches the whole pattern. -/
theorem matchSeq_prefix_iff (items : List RepItem) (s : List Char) :
    matchSeq items s = true ↔ ∃ t, t <+: s ∧ fullMatch items t = true := by
  induction items generalizing s with
  | nil =>
    simp only [matchSeq]
    exact ⟨fun _ => ⟨[], List.nil_prefix, rfl⟩, fun _ => trivial⟩
  | cons it rest ih =>
    constructor
    · intro h
      obtain ⟨k, hlo, hhi, hk, hall, hms⟩ := (matchSeq_cons_iff it rest s).mp h
      obtain ⟨t', ht'p, ht'f⟩ := (ih (s.drop k)).mp hms
      obtain ⟨u, hu⟩ := ht'p
      have hlen : (s.take k).length = k := by
        simp [List.length_take, Nat.min_eq_left hk]
      refine ⟨s.take k ++ t', ⟨u, ?_⟩, ?_⟩
      · rw [List.append_assoc, hu, List.take_append_drop]
      · refine (fullMatch_cons_iff it rest _).mpr ⟨k, hlo, hhi, ?_, ?_, ?_⟩
        · rw [List.length_append, hlen]
          exact Nat.le_add_right k t'.length
        · rw [List.take_left' hlen]
          exact hall
        · rw [List.drop_left' hlen]
          exact ht'f
    · rintro ⟨t, ⟨u, hu⟩, hf⟩
      obtain ⟨k, hlo, hhi, hk, hall, hfm⟩ := (fullMatch_cons_iff it rest t).mp hf
      refine (matchSeq_cons_iff it rest s).mpr ⟨k, hlo, hhi, ?_, ?_, ?_⟩
      · calc k ≤ t.length := hk
          _ ≤ s.length := by rw [← hu, List.length_append]; exact Nat.le_add_right _ _
      · rw [← hu, List.take_append_of_le_length hk]
        exact hall
      · refine (ih (s.drop k)).mpr ⟨t.drop k, ⟨u, ?_⟩, hfm⟩
        rw [← hu, List.drop_append_of_le_length hk]

/-- A pattern whose first factor requires at least one character only
matches a string whose first character is in that factor's class. -/
theorem matchSeq_head_cls {it : RepItem} {rest : List RepItem} {c : Char}
    {r : List Char} (hlo : 1 ≤ it.lo)
    (h : matchSeq (it :: rest) (c :: r) = true) : it.cls c = true := by
  obtain ⟨k, hlo', _, _, hall, _⟩ := (matchSeq_cons_iff it rest (c :: r)).mp h
  obtain ⟨k', rfl⟩ : ∃ k', k = k' + 1 :=
    ⟨k - 1, by omega⟩
  simpa [List.all_cons, Bool.and_eq_true] using And.left (by
    simpa [List.take_succ_cons, List.all_cons, Bool.and_eq_true] using hall)

/-- The USA pattern `[A-Z0-9]{1,7}` matches any string whose first
character is an uppercase letter or digit. -/
theorem matchSeq_USA_of_head {c : Char} (r : List Char)
    (hc : isUpperOrDigit c = true) : matchSeq patUSA (c :: r) = true := by
  refine (matchSeq_cons_iff ⟨isUpperOrDigit, 1, 7⟩ [] (c :: r)).mpr
    ⟨1, le_refl 1, by decide, Nat.succ_le_succ (Nat.zero_le _), ?_, rfl⟩
  simp [List.take_succ_cons, List.all_cons, hc]

/-- Unfolding of `detect_country` into its five-way first-match cascade. -/
theorem detect_country_eq (text : List Char) :
    detect_country text =
      (if matchSeq patUSA (stripSpaces text) then "USA"
       else if matchSeq patIndia (stripSpaces text) then "India"
       else if matchSeq patNepal (stripSpaces text) then "Nepal"
       else if matchSeq patAustralia (stripSpaces text) then "Australia"
       else if matchSeq patCanada (stripSpaces text) then "Canada"
       else "Unknown") := by
  unfold detect_country LICENSE_PLATE_PATTERNS
  simp only [List.find?]
  rcases h1 : matchSeq patUSA (stripSpaces text) <;>
    rcases h2 : matchSeq patIndia (stripSpaces text) <;>
      rcases h3 : matchSeq patNepal (stripSpaces text) <;>
        rcases h4 : matchSeq patAustralia (stripSpaces text) <;>
          rcases h5 : matchSeq patCanada (stripSpaces text) <;>
            simp [h1, h2, h3, h4, h5]

/-- Closed-form behaviour of `detect_country` on every input: the USA
pattern `[A-Z0-9]{1,7}` is tried first and subsumes the first character
requirement of every other pattern, so the answer is `"USA"` exactly
when the space-stripped text starts with an uppercase letter or a
digit, and `"Unknown"` otherwise. -/
theorem detect_country_closed_form (text : List Char) :
    detect_country text =
      (match stripSpaces text with
       | [] => "Unknown"
       | c :: _ => if isUpperOrDigit c then "USA" else "Unknown") := by
  rw [detect_country_eq]
  rcases hs : stripSpaces text with _ | ⟨c, r⟩
  · have e1 : matchSeq patUSA [] = false := by decide
    have e2 : matchSeq patIndia [] = false := by decide
    have e3 : matchSeq patNepal [] = false := by decide
    have e4 : matchSeq patAustralia [] = false := by decide
    have e5 : matchSeq patCanada [] = false := by decide
    simp [e1, e2, e3, e4, e5]
  · by_cases hc : isUpperOrDigit c = true
    · simp [matchSeq_USA_of_head r hc, hc]
    · have hcb : isUpperOrDigit c = false := by
        cases h : isUpperOrDigit c
        · rfl
        · exact absurd h hc
      have hup : isUpperAZ c = false := by
        cases h : isUpperAZ c
        · rfl
        · exact absurd (by simp [isUpperOrDigit, h]) hc
      have e1 : matchSeq patUSA (c :: r) = false := by
        cases h : matchSeq patUSA (c :: r)
        · rfl
        · exact absurd (matchSeq_head_cls (by norm_num) h) (by simp [hcb])
      have e2 : matchSeq patIndia (c :: r) = false := by
        cases h : matchSeq patIndia (c :: r)
        · rfl
        · exact absurd (matchSeq_head_cls (by norm_num) h) (by simp [hup])
      have e3 : matchSeq patNepal (c :: r) = false := by
        cases h : matchSeq patNepal (c :: r)
        · rfl
        · exact absurd (matchSeq_head_cls (by norm_num) h) (by simp [hup])
      have e4 : matchSeq patAustralia (c :: r) = false := by
        cases h : matchSeq patAustralia (c :: r)
        · rfl
        · exact absurd (matchSeq_head_cls (by norm_num) h) (by simp [hup])
      have e5 : matchSeq patCanada (c :: r) = false := by
        cases h : matchSeq patCanada (c :: r)
        · rfl
        · exact absurd (matchSeq_head_cls (by norm_num) h) (by simp [hcb])
      simp [e1, e2, e3, e4, e5, hcb]

/-! ## Lemmas about the frame pipeline -/

/-- The plates accumulated by the inner result loop are exactly the
accepted results, mapped to plates, appended in order. -/
theorem foldl_resultStep_snd (ocv : Ocv γ) (r : Rect) (rs : List OcrResult) :
    ∀ st : Frame × List Plate,
      (rs.foldl (resultStep ocv r) st).2 = st.2 ++ (acceptedResults rs).map mkPlate := by
  induction rs with
  | nil => intro st; simp [acceptedResults]
  | cons res rest ih =>
    intro st
    rw [List.foldl_cons, ih]
    by_cases h1 : res.prob < mkRat 1 5
    · have e : (resultStep ocv r st res).2 = st.2 := by simp [resultStep, h1]
      have ef : acceptedResults (res :: rest) = acceptedResults rest := by
        simp [acceptedResults, List.filter_cons, h1]
      rw [e, ef]
    · by_cases h2 : 4 ≤ (normalize res.text).length
      · have e : (resultStep ocv r st res).2 = st.2 ++ [mkPlate res] := by
          simp [resultStep, h1, h2, mkPlate]
        have ef : acceptedResults (res :: rest) = res :: acceptedResults rest := by
          simp [acceptedResults, List.filter_cons, h1, h2]
        rw [e, ef, List.map_cons, List.append_assoc, List.singleton_append]
      · have e : (resultStep ocv r st res).2 = st.2 := by simp [resultStep, h1, h2]
        have ef : acceptedResults (res :: rest) = acceptedResults rest := by
          simp [acceptedResults, List.filter_cons, h1, h2]
        rw [e, ef]

/-- `runContour` factored through the geometric gate `regionOcr`. -/
theorem runContour_eq (ocv : Ocv γ) (reader : OcrReader) (f : Frame) (cnt : γ) :
    runContour ocv reader f cnt =
      match regionOcr ocv f cnt with
      | none => (f, [], [])
      | some p =>
        ((((reader.readtext p.2).foldl (resultStep ocv p.1) (f, [])).1,
          ((reader.readtext p.2).foldl (resultStep ocv p.1) (f, [])).2,
          [⟨cnt, p.1, p.2⟩]) : Frame × List Plate × List (OcrCall γ)) := by
  simp only [runContour, regionOcr]
  split_ifs <;> rfl

/-- Destructing a successful geometric gate: the rectangle is the
contour's bounding rectangle, the crop is taken from `f`, and every
filter condition of `main.py` lines 36-45 holds. -/
theorem regionOcr_some {ocv : Ocv γ} {f : Frame} {cnt : γ} {r : Rect}
    {roi : List (List Nat)} (h : regionOcr ocv f cnt = some (r, roi)) :
    r = ocv.boundingRect cnt ∧ roi = cropAt f r.x r.y r.w r.h ∧
      1000 ≤ ocv.contourArea cnt ∧ 4 ≤ ocv.approxLen cnt ∧
      mkRat 3 2 ≤ mkRat r.w r.h ∧ mkRat r.w r.h ≤ 5 ∧
      20 ≤ roi.length ∧ 80 ≤ min (r.x + r.w) f.W - r.x := by
  unfold regionOcr at h
  split_ifs at h with h1 h2 h3 h4
  cases h
  exact ⟨rfl, rfl, not_lt.mp h1, h2, h3.1, h3.2,
    not_lt.mp (not_or.mp h4).1, not_lt.mp (not_or.mp h4).2⟩

/-- Each row of a crop has the clamped width of the slice. -/
theorem cropAt_row_length {f : Frame} {x y w h : Nat} {row : List Nat}
    (hr : row ∈ cropAt f x y w h) : row.length = min (x + w) f.W - x := by
  unfold cropAt at hr
  obtain ⟨i, _, rfl⟩ := List.mem_map.mp hr
  simp

theorem processContours_frame_cons (ocv : Ocv γ) (reader : OcrReader)
    (f : Frame) (cnt : γ) (rest : List γ) :
    (processContours ocv reader f (cnt :: rest)).frame =
      (processContours ocv reader (runContour ocv reader f cnt).1 rest).frame := rfl

theorem processContours_plates_cons (ocv : Ocv γ) (reader : OcrReader)
    (f : Frame) (cnt : γ) (rest : List γ) :
    (processContours ocv reader f (cnt :: rest)).plates =
      (runContour ocv reader f cnt).2.1 ++
        (processContours ocv reader (runContour ocv reader f cnt).1 rest).plates := rfl

theorem processContours_calls_cons (ocv : Ocv γ) (reader : OcrReader)
    (f : Frame) (cnt : γ) (rest : List γ) :
    (processContours ocv reader f (cnt :: rest)).calls =
      (runContour ocv reader f cnt).2.2 ++
        (processContours ocv reader (runContour ocv reader f cnt).1 rest).calls := rfl

/-- A run that makes no OCR call emits no plate and leaves the frame
untouched (annotation happens only after an OCR call). -/
theorem processContours_calls_nil (ocv : Ocv γ) (reader : OcrReader) :
    ∀ (cnts : List γ) (f : Frame),
      (processContours ocv reader f cnts).calls = [] →
        (processContours ocv reader f cnts).plates = [] ∧
          (processContours ocv reader f cnts).frame = f := by
  intro cnts
  induction cnts with
  | nil => exact fun f _ => ⟨rfl, rfl⟩
  | cons cnt rest ih =>
    intro f h
    rw [processContours_calls_cons] at h
    rw [processContours_plates_cons, processContours_frame_cons]
    rcases hro : regionOcr ocv f cnt with _ | p
    · simp only [runContour_eq, hro, List.nil_append] at h ⊢
      exact ih f h
    · simp only [runContour_eq, hro] at h
      simp at h

/-- If the whole run makes exactly one OCR call, its plates are exactly
the accepted results of that call, in the reader's order. -/
theorem processContours_calls_one (ocv : Ocv γ) (reader : OcrReader) :
    ∀ (cnts : List γ) (f : Frame) (t : OcrCall γ),
      (processContours ocv reader f cnts).calls = [t] →
        (processContours ocv reader f cnts).plates =
          (acceptedResults (reader.readtext t.roi)).map mkPlate := by
  intro cnts
  induction cnts with
  | nil => intro f t h; exact absurd h (by simp [processContours])
  | cons cnt rest ih =>
    intro f t h
    rw [processContours_calls_cons] at h
    rw [processContours_plates_cons]
    rcases hro : regionOcr ocv f cnt with _ | p
    · simp only [runContour_eq, hro, List.nil_append] at h ⊢
      exact ih f t h
    · simp only [runContour_eq, hro, List.cons_append, List.nil_append,
        List.cons.injEq] at h
      obtain ⟨rfl, hrest⟩ := h
      have hnil := processContours_calls_nil ocv reader rest
        ((((reader.readtext p.2).foldl (resultStep ocv p.1) (f, [])).1)) hrest
      simp only [runContour_eq, hro]
      rw [hnil.1, List.append_nil]
      exact foldl_resultStep_snd ocv p.1 (reader.readtext p.2) (f, [])

/-- The first OCR call of a run always receives a crop of the original,
un-annotated frame (no drawing can precede the first call). -/
theorem processContours_first_call (ocv : Ocv γ) (reader : OcrReader) :
    ∀ (cnts : List γ) (f : Frame) (t : OcrCall γ) (rest : List (OcrCall γ)),
      (processContours ocv reader f cnts).calls = t :: rest →
        t.rect = ocv.boundingRect t.cnt ∧
          t.roi = cropAt f t.rect.x t.rect.y t.rect.w t.rect.h := by
  intro cnts
  induction cnts with
  | nil => intro f t rest h; exact absurd h (by simp [processContours])
  | cons cnt cs ih =>
    intro f t rest h
    rw [processContours_calls_cons] at h
    rcases hro : regionOcr ocv f cnt with _ | p
    · simp only [runContour_eq, hro, List.nil_append] at h
      exact ih f t rest h
    · simp only [runContour_eq, hro, List.cons_append, List.cons.injEq] at h
      obtain ⟨rfl, -⟩ := h
      obtain ⟨h1, h2, -⟩ := regionOcr_some hro
      exact ⟨h1, h2⟩

/-- Every OCR call of a run passed the geometric gate at some
intermediate frame. -/
theorem processContours_call_mem (ocv : Ocv γ) (reader : OcrReader) :
    ∀ (cnts : List γ) (f : Frame) (t : OcrCall γ),
      t ∈ (processContours ocv reader f cnts).calls →
        ∃ f', regionOcr ocv f' t.cnt = some (t.rect, t.roi) := by
  intro cnts
  induction cnts with
  | nil => intro f t h; exact absurd h (by simp [processContours])
  | cons cnt cs ih =>
    intro f t h
    rw [processContours_calls_cons] at h
    rcases hro : regionOcr ocv f cnt with _ | p
    · simp only [runContour_eq, hro, List.nil_append] at h
      exact ih _ t h
    · simp only [runContour_eq, hro, List.cons_append, List.mem_cons] at h
      rcases h with rfl | h

      · exact ⟨f, by simpa using hro⟩
      · exact ih _ t h

/-- Every plate of a run comes from an OCR result that passed the
confidence and length filters. -/
theorem processContours_plate_mem (ocv : Ocv γ) (reader : OcrReader) :
    ∀ (cnts : List γ) (f : Frame) (p : Plate),
      p ∈ (processContours ocv reader f cnts).plates →
        ∃ res : OcrResult, p = mkPlate res ∧
          ¬ res.prob < mkRat 1 5 ∧ 4 ≤ (normalize res.text).length := by
  intro cnts
  induction cnts with
  | nil => intro f p h; exact absurd h (by simp [processContours])
  | cons cnt cs ih =>
    intro f p h
    rw [processContours_plates_cons] at h
    rcases hro : regionOcr ocv f cnt with _ | q
    · simp only [runContour_eq, hro, List.nil_append] at h
      exact ih _ p h
    · simp only [runContour_eq, hro, List.mem_append] at h
      rcases h with h | h
      · rw [foldl_resultStep_snd, List.nil_append] at h
        obtain ⟨res, hres, rfl⟩ := List.mem_map.mp h
        have hb := (List.mem_filter.mp hres).2
        simp only [Bool.and_eq_true, Bool.not_eq_true', decide_eq_false_iff_not,
          decide_eq_true_eq] at hb
        exact ⟨res, rfl, hb.1, hb.2⟩
      · exact ih _ p h

/-- The plates of a run are the specification-side plate stream. -/
theorem processContours_plates_spec (ocv : Ocv γ) (reader : OcrReader) :
    ∀ (cnts : List γ) (f : Frame),
      (processContours ocv reader f cnts).plates =
        framePlatesSpec ocv reader f cnts := by
  intro cnts
  induction cnts with
  | nil => intro f; rfl
  | cons cnt cs ih =>
    intro f
    rw [processContours_plates_cons, ih]
    rcases hro : regionOcr ocv f cnt with _ | p
    · simp only [framePlatesSpec, hro, runContour_eq, List.nil_append]
    · simp only [framePlatesSpec, hro, runContour_eq]
      rw [foldl_resultStep_snd, List.nil_append]

/-- Generic first-match characterisation of `List.find?`: if every
element before index `i` fails the predicate and the element at `i`
satisfies it, `find?` returns the element at `i`. -/
theorem find?_eq_get_of_first {α : Type} (p : α → Bool) :
    ∀ (l : List α) (i : Nat) (hi : i < l.length),
      (∀ (j : Nat) (hj : j < i), p (l.get ⟨j, Nat.lt_trans hj hi⟩) = false) →
        p (l.get ⟨i, hi⟩) = true → l.find? p = some (l.get ⟨i, hi⟩) := by
  intro l
  induction l with
  | nil => intro i hi; exact absurd hi (by simp)
  | cons a l ih =>
    intro i hi hbef hp
    cases i with
    | zero =>
      simp only [List.get] at hp
      simp [List.find?_cons, hp]
    | succ i' =>
      have ha : p a = false := hbef 0 (Nat.succ_pos i')
      have hi' : i' < l.length := Nat.lt_of_succ_lt_succ hi
      have hr := ih i' hi' (fun j hj => hbef (j + 1) (Nat.succ_lt_succ hj)) hp
      simp [List.find?_cons, ha, hr]

/-! ## The claims -/

/-- C1, counterexample: a frame whose processing yields exactly one
candidate region, on which OCR returns exactly one result with text
"AB12CD3456" and confidence 0.9 ≥ 0.2, emits exactly one Detected
Plate — but its country field is "USA", not "India": the USA pattern
`[A-Z0-9]{1,7}` is first in the table and already matches. -/
theorem C1_counterexample :
    (process_frame ocvOne readerIndiaText flatFrame).calls.length = 1 ∧
      readerIndiaText.readtext
          ((process_frame ocvOne readerIndiaText flatFrame).calls.getD 0 noCall).roi =
        [⟨[], "AB12CD3456".toList, mkRat 9 10⟩] ∧
      (process_frame ocvOne readerIndiaText flatFrame).plates =
        [("AB12CD3456".toList, "USA", mkRat 9 10)] ∧
      ("USA" : String) ≠ "India" :=
  ⟨by decide, by decide, by decide, by decide⟩

/-- C1, amended: for a frame whose processing yields exactly one
candidate region, on which the OCR oracle returns exactly one result
with text "AB12CD3456" and confidence at least 0.2, the frame pipeline
emits exactly one Detected Plate and its country field equals "USA"
(not "India" — the USA pattern shadows India's by table order). -/
theorem C1_one_region_plate (ocv : Ocv γ) (reader : OcrReader) (f : Frame)
    (t : OcrCall γ) (res : OcrResult)
    (hcalls : (process_frame ocv reader f).calls = [t])
    (hread : reader.readtext t.roi = [res])
    (htext : res.text = "AB12CD3456".toList)
    (hprob : mkRat 1 5 ≤ res.prob) :
    (process_frame ocv reader f).plates =
      [("AB12CD3456".toList, "USA", res.prob)] := by
  have hp := processContours_calls_one ocv reader (ocv.contoursOf f) f t hcalls
  have hnorm : normalize res.text = "AB12CD3456".toList := by rw [htext]; decide
  have hnl : 4 ≤ (normalize res.text).length := by rw [hnorm]; decide
  have hnp : ¬ res.prob < mkRat 1 5 := not_lt.mpr hprob
  have hacc : acceptedResults [res] = [res] := by
    simp [acceptedResults, List.filter_cons, hnp, hnl]
  rw [show (process_frame ocv reader f).plates =
      (processContours ocv reader f (ocv.contoursOf f)).plates from rfl, hp,
    hread, hacc, List.map_cons, List.map_nil]
  rw [show mkPlate res = ("AB12CD3456".toList,
    detect_country ("AB12CD3456".toList), res.prob) from by rw [mkPlate, hnorm]]
  rw [show detect_country "AB12CD3456".toList = "USA" from by decide]

/-- C1, witness for the amended theorem: the one-region scenario with
OCR text "AB12CD3456" at confidence 0.9 produces exactly the plate
("AB12CD3456", "USA", 0.9). -/
theorem C1_witness :
    (process_frame ocvOne readerIndiaText flatFrame).plates =
      [("AB12CD3456".toList, "USA", mkRat 9 10)] :=
  C1_one_region_plate ocvOne readerIndiaText flatFrame
    ⟨0, ⟨0, 0, 80, 20⟩, cropAt flatFrame 0 0 80 20⟩
    ⟨[], "AB12CD3456".toList, mkRat 9 10⟩ (by decide) rfl rfl (by decide)

/-- C2: the text "XYZ123" yields "USA", and every text that the Canada
pattern matches yields a country other than "Canada" — the USA pattern,
identical to Canada's, comes first in the table and always wins. -/
theorem C2_usa_shadows_canada :
    detect_country "XYZ123".toList = "USA" ∧
      ∀ text : List Char, matchSeq patCanada (stripSpaces text) = true →
        detect_country text ≠ "Canada" := by
  refine ⟨by decide, fun text hc => ?_⟩
  have hu : matchSeq patUSA (stripSpaces text) = true := hc
  rw [detect_country_eq]
  simp only [hu, if_true]
  decide

/-- C2, witness: "9ABC" is matched by the Canada pattern yet is not
classified as "Canada". -/
theorem C2_witness :
    matchSeq patCanada (stripSpaces "9ABC".toList) = true ∧
      detect_country "9ABC".toList ≠ "Canada" :=
  ⟨by decide, C2_usa_shadows_canada.2 "9ABC".toList (by decide)⟩

/-- C3: on any input of alphanumeric and whitespace characters only,
the matcher returns "USA" exactly when the space-stripped text begins
with an uppercase letter or a digit and "Unknown" otherwise, and it
never returns "India", "Nepal", "Australia", or "Canada". -/
theorem C3_alnum_input_usa_or_unknown (text : List Char)
    (_halnum : ∀ c ∈ text, py_isalnum c = true ∨ py_isspace c = true) :
    detect_country text =
      (match stripSpaces text with
       | [] => "Unknown"
       | c :: _ => if isUpperOrDigit c then "USA" else "Unknown") ∧
      detect_country text ≠ "India" ∧ detect_country text ≠ "Nepal" ∧
      detect_country text ≠ "Australia" ∧ detect_country text ≠ "Canada" := by
  refine ⟨detect_country_closed_form text, ?_⟩
  rw [detect_country_closed_form text]
  rcases hs : stripSpaces text with _ | ⟨c, r⟩
  · exact ⟨by decide, by decide, by decide, by decide⟩
  · by_cases hc : isUpperOrDigit c = true
    · simp only [hc, if_true]
      exact ⟨by decide, by decide, by decide, by decide⟩
    · have hcc : isUpperOrDigit c = false := by
        cases hb : isUpperOrDigit c
        · rfl
        · exact absurd hb hc
      simp only [hcc, Bool.false_eq_true, if_false]
      exact ⟨by decide, by decide, by decide, by decide⟩

/-- C3, witness: "AB12 CD" (alphanumerics and a space) is classified
"USA" and none of the shadowed countries. -/
theorem C3_witness :
    (detect_country "AB12 CD".toList =
      (match stripSpaces "AB12 CD".toList with
       | [] => "Unknown"
       | c :: _ => if isUpperOrDigit c then "USA" else "Unknown")) ∧
      detect_country "AB12 CD".toList ≠ "India" ∧
      detect_country "AB12 CD".toList ≠ "Nepal" ∧
      detect_country "AB12 CD".toList ≠ "Australia" ∧
      detect_country "AB12 CD".toList ≠ "Canada" :=
  C3_alnum_input_usa_or_unknown "AB12 CD".toList (by decide)

/-- C4, amended: the crop passed to the first OCR invocation of a frame
equals the corresponding rectangle of the original input frame (no
annotation can precede it); the crop is not insulated from annotations
drawn for earlier regions, so later invocations read the frame as
already annotated. -/
theorem C4_first_crop_original (ocv : Ocv γ) (reader : OcrReader) (f : Frame)
    (t : OcrCall γ) (rest : List (OcrCall γ))
    (h : (process_frame ocv reader f).calls = t :: rest) :
    t.roi = cropAt f t.rect.x t.rect.y t.rect.w t.rect.h :=
  (processContours_first_call ocv reader (ocv.contoursOf f) f t rest h).2

/-- C4, counterexample: with two overlapping candidate regions, the
crop passed to the second OCR invocation differs from the corresponding
rectangle of the input frame — the green rectangle drawn for the first
region's accepted plate has already overwritten pixels inside it. -/
theorem C4_counterexample :
    (process_frame ocvTwo readerAB12 flatFrame).calls.length = 2 ∧
      ((process_frame ocvTwo readerAB12 flatFrame).calls.getD 1 noCall).rect =
        ⟨2, 2, 80, 20⟩ ∧
      ((process_frame ocvTwo readerAB12 flatFrame).calls.getD 1 noCall).roi ≠
        cropAt flatFrame 2 2 80 20 :=
  ⟨by decide, by decide, by decide⟩

/-- C4, witness for the amended theorem: in the two-region scenario the
first OCR invocation still receives exactly the rectangle of the
original frame. -/
theorem C4_witness :
    ((process_frame ocvTwo readerAB12 flatFrame).calls.getD 0 noCall).roi =
      cropAt flatFrame 0 0 80 20 := by
  have h : (process_frame ocvTwo readerAB12 flatFrame).calls =
      ((process_frame ocvTwo readerAB12 flatFrame).calls.getD 0 noCall) ::
        (process_frame ocvTwo readerAB12 flatFrame).calls.tail := by decide
  exact (C4_first_crop_original ocvTwo readerAB12 flatFrame _ _ h).trans (by decide)

/-- C5: OCR is invoked on a region only if the contour's area is at
least 1000, the approximated polygon has at least 4 vertices, the
bounding rectangle's aspect ratio w/h lies in [1.5, 5.0] (so never 1.0,
a square), and the crop is at least 80 pixels wide and 20 pixels
tall. -/
theorem C5_geometric_gate (ocv : Ocv γ) (reader : OcrReader) (f : Frame)
    (t : OcrCall γ) (ht : t ∈ (process_frame ocv reader f).calls) :
    1000 ≤ ocv.contourArea t.cnt ∧ 4 ≤ ocv.approxLen t.cnt ∧
      t.rect = ocv.boundingRect t.cnt ∧
      mkRat 3 2 ≤ mkRat t.rect.w t.rect.h ∧ mkRat t.rect.w t.rect.h ≤ 5 ∧
      20 ≤ t.roi.length ∧ ∀ row ∈ t.roi, 80 ≤ row.length := by
  obtain ⟨f', hro⟩ := processContours_call_mem ocv reader (ocv.contoursOf f) f t ht
  obtain ⟨h1, h2, h3, h4, h5, h6, h7, h8⟩ := regionOcr_some hro
  refine ⟨h3, h4, h1, h5, h6, h7, fun row hrow => ?_⟩
  rw [h2] at hrow
  rw [cropAt_row_length hrow]
  exact h8

/-- C5, witness: the one OCR call of the one-region scenario satisfies
every geometric filter. -/
theorem C5_witness :
    1000 ≤ ocvOne.contourArea 0 ∧ 4 ≤ ocvOne.approxLen 0 ∧
      (⟨0, 0, 80, 20⟩ : Rect) = ocvOne.boundingRect 0 ∧
      mkRat 3 2 ≤ mkRat 80 20 ∧ mkRat 80 20 ≤ 5 ∧
      20 ≤ (cropAt flatFrame 0 0 80 20).length ∧
      ∀ row ∈ cropAt flatFrame 0 0 80 20, 80 ≤ row.length :=
  C5_geometric_gate ocvOne readerIndiaText flatFrame
    ⟨0, ⟨0, 0, 80, 20⟩, cropAt flatFrame 0 0 80 20⟩ (by decide)

/-- C6: every Detected Plate emitted by the pipeline has confidence at
least 0.2 and a normalized text of length at least 4 containing only
alphanumeric or whitespace characters; in particular a text of length 3
is never emitted, regardless of confidence. -/
theorem C6_plate_invariants (ocv : Ocv γ) (reader : OcrReader) (f : Frame)
    (p : Plate) (hp : p ∈ (process_frame ocv reader f).plates) :
    mkRat 1 5 ≤ p.2.2 ∧ 4 ≤ p.1.length ∧
      (∀ c ∈ p.1, py_isalnum c = true ∨ py_isspace c = true) ∧
      p.1.length ≠ 3 := by
  obtain ⟨res, rfl, hprob, hlen⟩ :=
    processContours_plate_mem ocv reader (ocv.contoursOf f) f p hp
  refine ⟨not_lt.mp hprob, hlen, ?_, ?_⟩
  · intro c hc
    simp only [mkPlate, normalize] at hc
    have := (List.mem_filter.mp hc).2
    simpa [Bool.or_eq_true] using this
  · have h4 : 4 ≤ (mkPlate res).1.length := hlen
    omega

/-- C6, witness: the plate of the one-region scenario satisfies the
confidence, length and character-class invariants. -/
theorem C6_witness :
    mkRat 1 5 ≤ mkRat 9 10 ∧ 4 ≤ "AB12CD3456".toList.length ∧
      (∀ c ∈ "AB12CD3456".toList, py_isalnum c = true ∨ py_isspace c = true) ∧
      "AB12CD3456".toList.length ≠ 3 :=
  C6_plate_invariants ocvOne readerIndiaText flatFrame
    ("AB12CD3456".toList, "USA", mkRat 9 10) (by decide)

/-- C7: `matchSeq` has prefix-match semantics (a pattern matches iff
some prefix of the text fully matches it, trailing characters allowed);
the matcher scans the table in declared order and returns the label of
the first matching pattern, or the sentinel "Unknown" when no pattern
matches the space-stripped text. -/
theorem C7_first_match_semantics :
    (∀ (items : List RepItem) (s : List Char),
        matchSeq items s = true ↔ ∃ t, t <+: s ∧ fullMatch items t = true) ∧
      (∀ text : List Char,
        (∀ cp ∈ LICENSE_PLATE_PATTERNS, matchSeq cp.2 (stripSpaces text) = false) →
          detect_country text = "Unknown") ∧
      (∀ (text : List Char) (i : Nat) (hi : i < LICENSE_PLATE_PATTERNS.length),
        (∀ (j : Nat) (hj : j < i),
          matchSeq (LICENSE_PLATE_PATTERNS.get ⟨j, Nat.lt_trans hj hi⟩).2
            (stripSpaces text) = false) →
        matchSeq (LICENSE_PLATE_PATTERNS.get ⟨i, hi⟩).2 (stripSpaces text) = true →
          detect_country text = (LICENSE_PLATE_PATTERNS.get ⟨i, hi⟩).1) := by
  refine ⟨matchSeq_prefix_iff, fun text hall => ?_,
    fun text i hi hbef hm => ?_⟩
  · have hnone : LICENSE_PLATE_PATTERNS.find?
        (fun cp => matchSeq cp.2 (stripSpaces text)) = none := by
      rw [List.find?_eq_none]
      intro x hx
      simp [hall x hx]
    simp [detect_country, hnone]
  · have hfind := find?_eq_get_of_first
      (fun cp => matchSeq cp.2 (stripSpaces text)) LICENSE_PLATE_PATTERNS i hi
      hbef hm
    simp [detect_country, hfind]

/-- C7, witness: "QQ77" matches the first table entry, so the matcher
returns that entry's label ("USA"). -/
theorem C7_witness :
    detect_country "QQ77".toList = (LICENSE_PLATE_PATTERNS.get ⟨0, by decide⟩).1 :=
  C7_first_match_semantics.2.2 "QQ77".toList 0 (by decide)
    (fun j hj => absurd hj (Nat.not_lt_zero j)) (by decide)

/-- C8: the plate sequence of a frame is exactly one plate per accepted
OCR result, in the reader's result order within each region,
concatenated across regions in contour discovery order (no confidence
sorting). -/
theorem C8_output_order (ocv : Ocv γ) (reader : OcrReader) (f : Frame) :
    (process_frame ocv reader f).plates =
      framePlatesSpec ocv reader f (ocv.contoursOf f) :=
  processContours_plates_spec ocv reader (ocv.contoursOf f) f

/-- C9: country matching is deterministic — on equal input texts,
`detect_country` (with its fixed pattern table) returns equal country
labels. -/
theorem C9_deterministic (t1 t2 : List Char) (h : t1 = t2) :
    detect_country t1 = detect_country t2 := congrArg detect_country h

/-- C9, witness: determinism at the concrete text "MH20EE7598". -/
theorem C9_witness :
    detect_country "MH20EE7598".toList = detect_country "MH20EE7598".toList :=
  C9_deterministic "MH20EE7598".toList "MH20EE7598".toList rfl

/-- C10: an undecodable image or an unopenable video source makes the
program report a descriptive error and return with no plates and no
frame processed, after exactly one load/open attempt (no retry). -/
theorem C10_fail_fast (γ : Type) (ocv : Ocv γ) (reader : OcrReader) :
    (∀ (imread : String → Option Frame) (path : String), imread path = none →
      process_image imread ocv reader path =
        ⟨["Error: Cannot load image " ++ path], [], 1⟩) ∧
      (∀ (capture : String → Option (List Frame)) (path : String)
          (use_matplotlib : Bool) (quit : Nat → Bool), capture path = none →
        play_video capture ocv reader path use_matplotlib quit =
          ⟨["Error: Unable to open video file: " ++ path], [], 1⟩) := by
  constructor
  · intro imread path h
    simp [process_image, h]
  · intro capture path m q h
    simp [play_video, h]

/-- C10, witness: concrete failing loads produce exactly the two error
outcomes. -/
theorem C10_witness :
    process_image (fun _ => none) ocvOne readerIndiaText "car.png" =
        ⟨["Error: Cannot load image " ++ "car.png"], [], 1⟩ ∧
      play_video (fun _ => none) ocvOne readerIndiaText "car.mp4" false
          (fun _ => false) =
        ⟨["Error: Unable to open video file: " ++ "car.mp4"], [], 1⟩ :=
  ⟨(C10_fail_fast Nat ocvOne readerIndiaText).1 (fun _ => none) "car.png" rfl,
    (C10_fail_fast Nat ocvOne readerIndiaText).2 (fun _ => none) "car.mp4" false
      (fun _ => false) rfl⟩

end LPR
